import Mathlib

/-! Verification of escseq, a lexer for ANSI/ECMA-48 escape sequences.

A shallow embedding of `lexer.go` and `token.go`, followed by theorems about
`ReadToken`.

Modelling decisions.

* A Go `rune` delivered by `ReadRune` is a Unicode scalar value: `Char`.
  Comparisons such as `r >= 0x40` are comparisons of `r.toNat`.
* A Go `string` built from runes (`string(r)`, `bytes.Buffer.WriteRune`) is a
  `String`; `string(r)` is `String.singleton r` and `WriteRune` is `String.push`.
* The `io.RuneScanner` (a `bufio.Reader`) is the sequence of code points not yet
  read, the rune a following `UnreadRune` would give back, and the error that
  `ReadRune` reports once the sequence is exhausted.
* A Go `error` result is `Option ReadError`, `none` being `nil`.
* The mutable receiver `l *lexer` is passed in and returned.
-/

set_option autoImplicit false

namespace escseq

/-! ## token.go -/

/-- The `TokenType` constants, in the order of the `iota` block. -/
inductive TokenType where
  | TokNone
  | TokUnknown
  | TokText
  | TokEsc
  | TokFe
  | TokPrivParam
  | TokParamNum
  | TokParamSep
  | TokSep
  | TokInter
  | TokFinal
  deriving DecidableEq, Repr

open TokenType

/-- The `token` struct: `t` is what `Type()` returns, `val` what `Val()` returns. -/
structure token where
  t : TokenType
  val : String
  deriving DecidableEq, Repr

/-- Accessor `Val()`. -/
def token.Val (tk : token) : String := tk.val

/-! ## The rune source -/

/-- Errors a source can report; `EOF` is `io.EOF`. -/
inductive ReadError where
  | EOF
  | Other (code : Nat)
  deriving DecidableEq, Repr

/-- The `io.RuneScanner`: `pending` are the code points not yet read, `lastRune`
is the rune that `UnreadRune` can give back (set by a successful `ReadRune`,
cleared by a failed one and by `UnreadRune`), `fail` is the error `ReadRune`
returns when `pending` is empty. -/
structure RuneScanner where
  pending : List Char
  lastRune : Option Char
  fail : ReadError
  deriving DecidableEq, Repr

/-- A scanner positioned at the start of `input`. -/
def RuneScanner.ofInput (input : List Char) (fail : ReadError) : RuneScanner :=
  ⟨input, none, fail⟩

/-- Method `ReadRune`: the next code point, or the source's error. -/
def RuneScanner.ReadRune (rd : RuneScanner) : Except ReadError Char × RuneScanner :=
  match rd.pending with
  | [] => (.error rd.fail, { rd with lastRune := none })
  | r :: rest => (.ok r, { rd with pending := rest, lastRune := some r })

/-- Method `UnreadRune`: gives back the rune of the last `ReadRune`, if that was
the most recent operation; otherwise it does nothing (it returns an error the
lexer ignores). -/
def RuneScanner.UnreadRune (rd : RuneScanner) : RuneScanner :=
  match rd.lastRune with
  | some r => { rd with pending := r :: rd.pending, lastRune := none }
  | none => rd

/-! ## lexer.go -/

/-- The `lexerState` constants. -/
inductive lexerState where
  | lexDefault
  | lexEsc
  | lexCSParam
  | lexCSInter
  deriving DecidableEq, Repr

open lexerState

/-- The `lexer` struct. -/
structure lexer where
  lastState : lexerState
  state : lexerState
  rd : RuneScanner
  deriving DecidableEq, Repr

/-- Constructor `NewLexer`: both states start as `lexDefault`. -/
def NewLexer (rd : RuneScanner) : lexer := ⟨lexDefault, lexDefault, rd⟩

/-- Method `setState`: remember the current state, then move to `s`. -/
def lexer.setState (l : lexer) (s : lexerState) : lexer :=
  { l with lastState := l.state, state := s }

/-- Go conversion `string(r)` of a rune. -/
def string (r : Char) : String := String.singleton r

/-- The `for` loop of `readCSParamNum`, by recursion on the code points not yet
read. `[]`: `ReadRune` fails and the loop breaks with `err` set. `r :: rest`:
`ReadRune` returns `r`; a digit is written to `buf` and the loop goes on with
`rest`, anything else is unread and the loop breaks with `err = nil`.
Returns `buf`, `err` and the scanner. -/
def readCSParamNumLoop (fail : ReadError) :
    List Char → String → String × Option ReadError × RuneScanner
  | [], buf => (buf, some fail, ⟨[], none, fail⟩)
  | r :: rest, buf =>
    if r.toNat ≥ 0x30 ∧ r.toNat ≤ 0x39 then
      readCSParamNumLoop fail rest (buf.push r)
    else
      (buf, none, ⟨r :: rest, none, fail⟩)

/-- Method `readCSParamNum`. -/
def lexer.readCSParamNum (l : lexer) : (token × Option ReadError) × lexer :=
  match readCSParamNumLoop l.rd.fail l.rd.pending "" with
  | (buf, err, rd) => ((⟨TokParamNum, buf⟩, err), { l with rd := rd })

/-- The `for` loop of `readCSPrivParam`: as `readCSParamNumLoop`, accepting
`0x30 .. 0x3f`. -/
def readCSPrivParamLoop (fail : ReadError) :
    List Char → String → String × Option ReadError × RuneScanner
  | [], buf => (buf, some fail, ⟨[], none, fail⟩)
  | r :: rest, buf =>
    if r.toNat ≥ 0x30 ∧ r.toNat ≤ 0x3f then
      readCSPrivParamLoop fail rest (buf.push r)
    else
      (buf, none, ⟨r :: rest, none, fail⟩)

/-- Method `readCSPrivParam`. -/
def lexer.readCSPrivParam (l : lexer) : (token × Option ReadError) × lexer :=
  match readCSPrivParamLoop l.rd.fail l.rd.pending "" with
  | (buf, err, rd) => ((⟨TokPrivParam, buf⟩, err), { l with rd := rd })

/-- The two statements after the `switch` of `ReadToken`:
`l.setState(lexDefault); return &token{TokUnknown, string(r)}, nil`. -/
def lexer.fallback (l : lexer) (r : Char) : (token × Option ReadError) × lexer :=
  ((⟨TokUnknown, string r⟩, none), l.setState lexDefault)

/-- Method `ReadToken`: the token, the error, and the lexer afterwards. -/
def lexer.ReadToken (l : lexer) : (token × Option ReadError) × lexer :=
  match l.rd.ReadRune with
  | (.error err, rd) => ((⟨TokNone, ""⟩, some err), { l with rd := rd })
  | (.ok r, rd) =>
    let l := { l with rd := rd }
    match l.state with
    | lexDefault =>
      if r.toNat = 0x1b then
        ((⟨TokEsc, string r⟩, none), l.setState lexEsc)
      else
        ((⟨TokText, string r⟩, none), l)
    | lexEsc =>
      if r.toNat ≥ 0x40 ∧ r.toNat ≤ 0x5f then
        ((⟨TokFe, string r⟩, none),
          if r = '[' then l.setState lexCSParam else l.setState lexDefault)
      else l.fallback r
    | lexCSParam =>
      if r.toNat ≥ 0x40 ∧ r.toNat ≤ 0x7e then
        ((⟨TokFinal, string r⟩, none), l.setState lexDefault)
      else if l.lastState = lexEsc ∧ r.toNat ≥ 0x3c ∧ r.toNat ≤ 0x3f then
        lexer.readCSPrivParam { l with rd := l.rd.UnreadRune }
      else if r.toNat ≥ 0x30 ∧ r.toNat ≤ 0x3f then
        let l := l.setState lexCSParam
        if r.toNat ≥ 0x3c ∧ r.toNat ≤ 0x3f then
          ((⟨TokUnknown, string r⟩, none), l)
        else if r = ':' then
          ((⟨TokParamSep, string r⟩, none), l)
        else if r = ';' then
          ((⟨TokSep, string r⟩, none), l)
        else
          lexer.readCSParamNum { l with rd := l.rd.UnreadRune }
      else if r.toNat ≥ 0x20 ∧ r.toNat ≤ 0x2f then
        ((⟨TokInter, string r⟩, none), l.setState lexCSInter)
      else l.fallback r
    | lexCSInter =>
      if r.toNat ≥ 0x40 ∧ r.toNat ≤ 0x7e then
        ((⟨TokFinal, string r⟩, none), l.setState lexDefault)
      else if r.toNat ≥ 0x20 ∧ r.toNat ≤ 0x2f then
        ((⟨TokInter, string r⟩, none), l.setState lexCSInter)
      else l.fallback r

/-! ## Driving the lexer -/

/-- The first `n` calls of `ReadToken`, each with the lexer it leaves behind. -/
def readTokens : Nat → lexer → List ((token × Option ReadError) × lexer)
  | 0, _ => []
  | n + 1, l =>
    let res := l.ReadToken
    res :: readTokens n res.2

/-- The consumer loop: call `ReadToken` until a call returns an error, keeping
every result up to and including that call. `none` when `fuel` calls were not
enough to see an error. -/
def drain : Nat → lexer → Option (List ((token × Option ReadError) × lexer))
  | 0, _ => none
  | fuel + 1, l =>
    let res := l.ReadToken
    match res.1.2 with
    | some _ => some [res]
    | none => (drain fuel res.2).map (res :: ·)

/-- Concatenation of the `Val()` of a list of results. -/
def concatVals (rs : List ((token × Option ReadError) × lexer)) : String :=
  rs.foldr (fun res acc => res.1.1.Val ++ acc) ""

/-- The code point `ESC`, `0x1b`. -/
def ESC : Char := Char.ofNat 0x1b

/-- The input `ESC [ < 1 m`. -/
def inputPrivFirst : List Char := [ESC, '[', '<', '1', 'm']

/-- The tokens and errors of the first `n` calls on a fresh lexer over `input`. -/
def tokenize (n : Nat) (input : List Char) (fail : ReadError) : List (token × Option ReadError) :=
  (readTokens n (NewLexer (.ofInput input fail))).map (·.1)

/-- The lexer after `k` calls of `ReadToken`. -/
def lexerAfter : Nat → lexer → lexer
  | 0, l => l
  | k + 1, l => lexerAfter k l.ReadToken.2

/-- The test `r >= 0x30 && r <= 0x39` of `readCSParamNum`. -/
def isDigitRune (r : Char) : Bool := decide (r.toNat ≥ 0x30 ∧ r.toNat ≤ 0x39)

/-- The test `r >= 0x30 && r <= 0x3f` of `readCSPrivParam`. -/
def isParamRune (r : Char) : Bool := decide (r.toNat ≥ 0x30 ∧ r.toNat ≤ 0x3f)

/-- The relation between `state` and `lastState` that every call preserves. -/
def stateInv (l : lexer) : Prop :=
  (l.state = lexEsc → l.lastState = lexDefault) ∧
  (l.state = lexCSParam → l.lastState = lexEsc ∨ l.lastState = lexCSParam) ∧
  (l.state = lexCSInter → l.lastState = lexCSParam ∨ l.lastState = lexCSInter)

/-! ## Lemmas on the run scanners -/

/-- One iteration of the loop of `readCSParamNum`, in terms of `ReadRune` and
`UnreadRune`. -/
theorem readCSParamNumLoop_step (rd : RuneScanner) (buf : String) :
    readCSParamNumLoop rd.fail rd.pending buf =
      match rd.ReadRune with
      | (.error err, rd1) => (buf, some err, rd1)
      | (.ok r, rd1) =>
        if r.toNat ≥ 0x30 ∧ r.toNat ≤ 0x39 then
          readCSParamNumLoop rd1.fail rd1.pending (buf.push r)
        else (buf, none, rd1.UnreadRune) := by
  obtain ⟨pending, lr, fl⟩ := rd
  cases pending <;> simp [readCSParamNumLoop, RuneScanner.ReadRune, RuneScanner.UnreadRune]

/-- One iteration of the loop of `readCSPrivParam`, in terms of `ReadRune` and
`UnreadRune`. -/
theorem readCSPrivParamLoop_step (rd : RuneScanner) (buf : String) :
    readCSPrivParamLoop rd.fail rd.pending buf =
      match rd.ReadRune with
      | (.error err, rd1) => (buf, some err, rd1)
      | (.ok r, rd1) =>
        if r.toNat ≥ 0x30 ∧ r.toNat ≤ 0x3f then
          readCSPrivParamLoop rd1.fail rd1.pending (buf.push r)
        else (buf, none, rd1.UnreadRune) := by
  obtain ⟨pending, lr, fl⟩ := rd
  cases pending <;> simp [readCSPrivParamLoop, RuneScanner.ReadRune, RuneScanner.UnreadRune]

theorem readCSParamNumLoop_data (fail : ReadError) (pending : List Char) (buf : String) :
    (readCSParamNumLoop fail pending buf).1.data ++ (readCSParamNumLoop fail pending buf).2.2.pending
      = buf.data ++ pending := by
  induction pending generalizing buf with
  | nil => simp [readCSParamNumLoop]
  | cons r rest ih =>
    unfold readCSParamNumLoop
    split
    · rw [ih]; simp [String.push]
    · rfl

theorem readCSPrivParamLoop_data (fail : ReadError) (pending : List Char) (buf : String) :
    (readCSPrivParamLoop fail pending buf).1.data ++ (readCSPrivParamLoop fail pending buf).2.2.pending
      = buf.data ++ pending := by
  induction pending generalizing buf with
  | nil => simp [readCSPrivParamLoop]
  | cons r rest ih =>
    unfold readCSPrivParamLoop
    split
    · rw [ih]; simp [String.push]
    · rfl

/-- The loop ends with an error exactly when it has read the source to its end. -/
theorem readCSParamNumLoop_err (fail : ReadError) (pending : List Char) (buf : String) :
    (readCSParamNumLoop fail pending buf).2.1
      = if (readCSParamNumLoop fail pending buf).2.2.pending = [] then some fail else none := by
  induction pending generalizing buf with
  | nil => simp [readCSParamNumLoop]
  | cons r rest ih =>
    unfold readCSParamNumLoop
    split
    · exact ih _
    · simp

theorem readCSPrivParamLoop_err (fail : ReadError) (pending : List Char) (buf : String) :
    (readCSPrivParamLoop fail pending buf).2.1
      = if (readCSPrivParamLoop fail pending buf).2.2.pending = [] then some fail else none := by
  induction pending generalizing buf with
  | nil => simp [readCSPrivParamLoop]
  | cons r rest ih =>
    unfold readCSPrivParamLoop
    split
    · exact ih _
    · simp

theorem readCSParamNumLoop_fail (fail : ReadError) (pending : List Char) (buf : String) :
    (readCSParamNumLoop fail pending buf).2.2.fail = fail := by
  induction pending generalizing buf with
  | nil => simp [readCSParamNumLoop]
  | cons r rest ih =>
    unfold readCSParamNumLoop
    split
    · exact ih _
    · rfl

theorem readCSPrivParamLoop_fail (fail : ReadError) (pending : List Char) (buf : String) :
    (readCSPrivParamLoop fail pending buf).2.2.fail = fail := by
  induction pending generalizing buf with
  | nil => simp [readCSPrivParamLoop]
  | cons r rest ih =>
    unfold readCSPrivParamLoop
    split
    · exact ih _
    · rfl

theorem readCSParamNumLoop_length (fail : ReadError) (pending : List Char) (buf : String) :
    (readCSParamNumLoop fail pending buf).2.2.pending.length ≤ pending.length := by
  induction pending generalizing buf with
  | nil => simp [readCSParamNumLoop]
  | cons r rest ih =>
    unfold readCSParamNumLoop
    split
    · exact Nat.le_succ_of_le (ih _)
    · simp

theorem readCSPrivParamLoop_length (fail : ReadError) (pending : List Char) (buf : String) :
    (readCSPrivParamLoop fail pending buf).2.2.pending.length ≤ pending.length := by
  induction pending generalizing buf with
  | nil => simp [readCSPrivParamLoop]
  | cons r rest ih =>
    unfold readCSPrivParamLoop
    split
    · exact Nat.le_succ_of_le (ih _)
    · simp

/-- A run of digits that reaches the end of the source is returned whole, with
the source error. -/
theorem readCSParamNumLoop_all (fail : ReadError) (d : List Char) (buf : String)
    (hd : ∀ c ∈ d, c.toNat ≥ 0x30 ∧ c.toNat ≤ 0x39) :
    readCSParamNumLoop fail d buf = (⟨buf.data ++ d⟩, some fail, ⟨[], none, fail⟩) := by
  induction d generalizing buf with
  | nil => simp [readCSParamNumLoop]
  | cons r rest ih =>
    have hr := hd r (List.mem_cons_self _ _)
    unfold readCSParamNumLoop
    rw [if_pos hr, ih _ (fun c hc => hd c (List.mem_cons_of_mem _ hc))]
    simp [String.push]

theorem readCSPrivParamLoop_all (fail : ReadError) (d : List Char) (buf : String)
    (hd : ∀ c ∈ d, c.toNat ≥ 0x30 ∧ c.toNat ≤ 0x3f) :
    readCSPrivParamLoop fail d buf = (⟨buf.data ++ d⟩, some fail, ⟨[], none, fail⟩) := by
  induction d generalizing buf with
  | nil => simp [readCSPrivParamLoop]
  | cons r rest ih =>
    have hr := hd r (List.mem_cons_self _ _)
    unfold readCSPrivParamLoop
    rw [if_pos hr, ih _ (fun c hc => hd c (List.mem_cons_of_mem _ hc))]
    simp [String.push]

/-! ## Lemmas on `ReadToken` -/

theorem toNat_injective {a b : Char} (h : a.toNat = b.toNat) : a = b := by
  have := congrArg Char.ofNat h
  simpa using this

/-- The `default` branch of the parameter-byte `switch` is reached by digits only. -/
theorem digit_of_default (r : Char) (h1 : r.toNat ≥ 0x30 ∧ r.toNat ≤ 0x3f)
    (h2 : ¬ (r.toNat ≥ 0x3c ∧ r.toNat ≤ 0x3f)) (h3 : ¬ r = ':') (h4 : ¬ r = ';') :
    r.toNat ≥ 0x30 ∧ r.toNat ≤ 0x39 := by
  have h5 : r.toNat ≠ 0x3a := fun h => h3 (toNat_injective h)
  have h6 : r.toNat ≠ 0x3b := fun h => h4 (toNat_injective h)
  omega

/-- What one call consumes is the text of its token. -/
theorem ReadToken_data (l : lexer) :
    l.ReadToken.1.1.val.data ++ l.ReadToken.2.rd.pending = l.rd.pending := by
  obtain ⟨ls, st, ⟨pending, lr, fail⟩⟩ := l
  cases pending with
  | nil => simp [lexer.ReadToken, RuneScanner.ReadRune]
  | cons r rest =>
    cases st <;> simp only [lexer.ReadToken, RuneScanner.ReadRune, lexer.fallback, lexer.setState,
      lexer.readCSPrivParam, lexer.readCSParamNum, RuneScanner.UnreadRune, string] <;>
    split_ifs <;> simp [String.singleton, String.push]
    · simpa using readCSPrivParamLoop_data fail (r :: rest) ""
    · simpa using readCSParamNumLoop_data fail (r :: rest) ""

/-- The source error never changes. -/
theorem ReadToken_fail (l : lexer) : l.ReadToken.2.rd.fail = l.rd.fail := by
  obtain ⟨ls, st, ⟨pending, lr, fail⟩⟩ := l
  cases pending with
  | nil => simp [lexer.ReadToken, RuneScanner.ReadRune]
  | cons r rest =>
    cases st <;> simp only [lexer.ReadToken, RuneScanner.ReadRune, lexer.fallback, lexer.setState,
      lexer.readCSPrivParam, lexer.readCSParamNum, RuneScanner.UnreadRune, string] <;>
    split_ifs <;> simp [readCSPrivParamLoop_fail, readCSParamNumLoop_fail]

/-- A call that returns an error returns the source error and leaves nothing to read. -/
theorem ReadToken_err (l : lexer) (e : ReadError) (h : l.ReadToken.1.2 = some e) :
    e = l.rd.fail ∧ l.ReadToken.2.rd.pending = [] := by
  obtain ⟨ls, st, ⟨pending, lr, fail⟩⟩ := l
  cases pending with
  | nil => simpa [lexer.ReadToken, RuneScanner.ReadRune, eq_comm] using h
  | cons r rest =>
    revert h
    cases st <;> simp only [lexer.ReadToken, RuneScanner.ReadRune, lexer.fallback, lexer.setState,
      lexer.readCSPrivParam, lexer.readCSParamNum, RuneScanner.UnreadRune, string] <;>
    split_ifs <;> simp
    · rw [readCSPrivParamLoop_err]; split_ifs with h1 <;> simp [h1, eq_comm]
    · rw [readCSParamNumLoop_err]; split_ifs with h1 <;> simp [h1, eq_comm]

/-- A call that returns no error has consumed at least one code point. -/
theorem ReadToken_progress (l : lexer) (h : l.ReadToken.1.2 = none) :
    l.ReadToken.2.rd.pending.length < l.rd.pending.length := by
  obtain ⟨ls, st, ⟨pending, lr, fail⟩⟩ := l
  cases pending with
  | nil => simp [lexer.ReadToken, RuneScanner.ReadRune] at h
  | cons r rest =>
    revert h
    cases st <;> simp only [lexer.ReadToken, RuneScanner.ReadRune, lexer.fallback, lexer.setState,
      lexer.readCSPrivParam, lexer.readCSParamNum, RuneScanner.UnreadRune, string] <;>
    split_ifs <;> simp
    · intro _
      unfold readCSPrivParamLoop
      rw [if_pos (by omega)]
      exact Nat.lt_succ_of_le (readCSPrivParamLoop_length _ _ _)
    · intro _
      unfold readCSParamNumLoop
      rw [if_pos (by apply digit_of_default <;> assumption)]
      exact Nat.lt_succ_of_le (readCSParamNumLoop_length _ _ _)


/-- Draining a lexer with enough fuel ends, and the texts of the tokens returned
add up to what was left to read. -/
theorem drain_concat (n : Nat) (l : lexer) (h : l.rd.pending.length < n) :
    ∃ rs, drain n l = some rs ∧ concatVals rs = ⟨l.rd.pending⟩ := by
  induction n generalizing l with
  | zero => omega
  | succ n ih =>
    unfold drain
    cases herr : l.ReadToken.1.2 with
    | some e =>
      refine ⟨[l.ReadToken], by simp [herr], ?_⟩
      apply String.ext
      have h1 := ReadToken_data l
      rw [(ReadToken_err l e herr).2] at h1
      simpa [concatVals, token.Val] using h1
    | none =>
      have hp := ReadToken_progress l herr
      obtain ⟨rs, hrs, hc⟩ := ih l.ReadToken.2 (by omega)
      refine ⟨l.ReadToken :: rs, by simp [herr, hrs], ?_⟩
      apply String.ext
      have h1 := ReadToken_data l
      have h2 := congrArg String.data hc
      simp only [concatVals, token.Val] at h2
      simp only [concatVals, List.foldr_cons, token.Val, String.data_append, h2]
      exact h1

/-- Claim C1 (lossless partition). For every finite input and every source error,
draining a fresh lexer (calling `ReadToken` up to and including the first call
that returns an error) ends within `input.length + 1` calls, and the
concatenation of `Val()` of all tokens returned, in order, is the input. -/
theorem C1_lossless_partition (input : List Char) (fail : ReadError) :
    ∃ rs, drain (input.length + 1) (NewLexer (.ofInput input fail)) = some rs ∧
      concatVals rs = String.mk input :=
  drain_concat (input.length + 1) (NewLexer (.ofInput input fail)) (Nat.lt_succ_self _)

/-- Claim C2, as amended. On `ESC [ < 1 m` a fresh lexer returns `Esc`, `Fe("[")`,
`PrivateParam("<1")`, `Final("m")`, each with a nil error: the private-marker
scanner takes the digit into its run. The fifth call reports the end of input. -/
theorem C2_private_marker_first (fail : ReadError) :
    tokenize 5 inputPrivFirst fail =
      [(⟨TokEsc, "\x1b"⟩, none), (⟨TokFe, "["⟩, none), (⟨TokPrivParam, "<1"⟩, none),
       (⟨TokFinal, "m"⟩, none), (⟨TokNone, ""⟩, some fail)] := by
  rfl

/-- Claim C2 as stated fails: the first five calls on `ESC [ < 1 m` do not return
`Esc`, `Fe("[")`, `PrivateParam("<")`, `ParamDigits("1")`, `Final("m")`. -/
theorem C2_as_stated_fails :
    tokenize 5 inputPrivFirst .EOF ≠
      [(⟨TokEsc, "\x1b"⟩, none), (⟨TokFe, "["⟩, none), (⟨TokPrivParam, "<"⟩, none),
       (⟨TokParamNum, "1"⟩, none), (⟨TokFinal, "m"⟩, none)] := by
  decide

/-- Claim C3 (private marker outside first position). In state `lexCSParam` with
`lastState` other than `lexEsc`, a next code point `c` in `[0x3c, 0x3f]` gives
`Unknown` with text `c` and a nil error, only `c` is consumed and the state
stays `lexCSParam`. And `ESC [ 1 < m` gives `Esc`, `Fe("[")`, `ParamDigits("1")`,
`Unknown("<")`, `Final("m")`, then the end of input. -/
theorem C3_private_marker_rejected (l : lexer) (c : Char) (rest : List Char) (fail : ReadError)
    (hst : l.state = lexCSParam) (hlast : l.lastState ≠ lexEsc)
    (hin : l.rd.pending = c :: rest) (hc : c.toNat ≥ 0x3c ∧ c.toNat ≤ 0x3f) :
    (l.ReadToken.1 = (⟨TokUnknown, string c⟩, none) ∧
      l.ReadToken.2.rd.pending = rest ∧ l.ReadToken.2.state = lexCSParam) ∧
    tokenize 6 [ESC, '[', '1', '<', 'm'] fail =
      [(⟨TokEsc, "\x1b"⟩, none), (⟨TokFe, "["⟩, none), (⟨TokParamNum, "1"⟩, none),
       (⟨TokUnknown, "<"⟩, none), (⟨TokFinal, "m"⟩, none), (⟨TokNone, ""⟩, some fail)] := by
  refine ⟨?_, rfl⟩
  obtain ⟨ls, st, ⟨pending, lr, fl⟩⟩ := l
  simp only at hst hlast hin
  subst hst hin
  have h1 : ¬ (c.toNat ≥ 0x40 ∧ c.toNat ≤ 0x7e) := by omega
  have h2 : c.toNat ≥ 0x30 ∧ c.toNat ≤ 0x3f := by omega
  simp [lexer.ReadToken, RuneScanner.ReadRune, lexer.setState, h1, h2, hc, hlast]

theorem C3_private_marker_rejected_witness :
    ((⟨lexCSParam, lexCSParam, .ofInput ['<', 'm'] .EOF⟩ : lexer).lastState ≠ lexEsc ∧
      ('<'.toNat ≥ 0x3c ∧ '<'.toNat ≤ 0x3f)) ∧
    ((⟨lexCSParam, lexCSParam, .ofInput ['<', 'm'] .EOF⟩ : lexer).ReadToken.1
        = (⟨TokUnknown, string '<'⟩, none) ∧
      (⟨lexCSParam, lexCSParam, .ofInput ['<', 'm'] .EOF⟩ : lexer).ReadToken.2.rd.pending = ['m'] ∧
      (⟨lexCSParam, lexCSParam, .ofInput ['<', 'm'] .EOF⟩ : lexer).ReadToken.2.state = lexCSParam) ∧
    tokenize 6 [ESC, '[', '1', '<', 'm'] .EOF =
      [(⟨TokEsc, "\x1b"⟩, none), (⟨TokFe, "["⟩, none), (⟨TokParamNum, "1"⟩, none),
       (⟨TokUnknown, "<"⟩, none), (⟨TokFinal, "m"⟩, none), (⟨TokNone, ""⟩, some .EOF)] :=
  ⟨⟨by decide, by decide⟩,
    C3_private_marker_rejected ⟨lexCSParam, lexCSParam, .ofInput ['<', 'm'] .EOF⟩ '<' ['m'] .EOF
      rfl (by decide) rfl (by decide)⟩

/-- Claim C4 (separators). In state `lexCSParam`, whatever `lastState` is, a next
code point `;` gives `TokSep` (the spec's `ParamSep`) with text `";"` and a next
code point `:` gives `TokParamSep` (the spec's `ParamSubSep`) with text `":"`;
the error is nil, one code point is consumed and the state stays `lexCSParam`.
And `ESC [ 1 ; 2 : 3 m` gives `Esc`, `Fe("[")`, `ParamDigits("1")`, `ParamSep(";")`,
`ParamDigits("2")`, `ParamSubSep(":")`, `ParamDigits("3")`, `Final("m")`, then the
end of input. -/
theorem C4_separators (l : lexer) (rest : List Char) (fail : ReadError)
    (hst : l.state = lexCSParam) :
    (l.rd.pending = ';' :: rest →
      l.ReadToken.1 = (⟨TokSep, ";"⟩, none) ∧ l.ReadToken.2.rd.pending = rest ∧
        l.ReadToken.2.state = lexCSParam) ∧
    (l.rd.pending = ':' :: rest →
      l.ReadToken.1 = (⟨TokParamSep, ":"⟩, none) ∧ l.ReadToken.2.rd.pending = rest ∧
        l.ReadToken.2.state = lexCSParam) ∧
    tokenize 9 [ESC, '[', '1', ';', '2', ':', '3', 'm'] fail =
      [(⟨TokEsc, "\x1b"⟩, none), (⟨TokFe, "["⟩, none), (⟨TokParamNum, "1"⟩, none),
       (⟨TokSep, ";"⟩, none), (⟨TokParamNum, "2"⟩, none), (⟨TokParamSep, ":"⟩, none),
       (⟨TokParamNum, "3"⟩, none), (⟨TokFinal, "m"⟩, none), (⟨TokNone, ""⟩, some fail)] := by
  obtain ⟨ls, st, ⟨pending, lr, fl⟩⟩ := l
  simp only at hst
  subst hst
  refine ⟨?_, ?_, ?_⟩
  · intro hin
    simp only at hin
    subst hin
    simp [lexer.ReadToken, RuneScanner.ReadRune, lexer.setState, string]
    decide
  · intro hin
    simp only at hin
    subst hin
    simp [lexer.ReadToken, RuneScanner.ReadRune, lexer.setState, string]
    decide
  · simp [tokenize, readTokens, NewLexer, RuneScanner.ofInput, lexer.ReadToken,
      RuneScanner.ReadRune, lexer.setState, lexer.readCSParamNum, readCSParamNumLoop,
      RuneScanner.UnreadRune, ESC, string]
    decide

theorem C4_separators_witness :
    ((⟨lexEsc, lexCSParam, .ofInput [';', ':'] .EOF⟩ : lexer).ReadToken.1 = (⟨TokSep, ";"⟩, none) ∧
      (⟨lexCSParam, lexCSParam, .ofInput [':', ';'] .EOF⟩ : lexer).ReadToken.1
        = (⟨TokParamSep, ":"⟩, none)) :=
  ⟨((C4_separators ⟨lexEsc, lexCSParam, .ofInput [';', ':'] .EOF⟩ [':'] .EOF rfl).1 rfl).1,
    ((C4_separators ⟨lexCSParam, lexCSParam, .ofInput [':', ';'] .EOF⟩ [';'] .EOF rfl).2.1 rfl).1⟩

/-- Claim C5 (truncated stream). For a non-empty run `d` of ASCII digits, a fresh
lexer over `ESC [ d` returns `Esc` and `Fe("[")` with nil errors and then
`ParamDigits(d)` together with the source error. More generally, in state
`lexCSParam` a digit run that reaches the end of the input is returned whole
with the source error, and so is a private-marker run (entered with `lastState`
`lexEsc` on a code point in `[0x3c, 0x3f]`); neither is a `TokNone` token. -/
theorem C5_truncated_stream (d : List Char) (fail : ReadError) (hne : d ≠ [])
    (hd : ∀ c ∈ d, c.toNat ≥ 0x30 ∧ c.toNat ≤ 0x39) :
    tokenize 3 (ESC :: '[' :: d) fail =
      [(⟨TokEsc, "\x1b"⟩, none), (⟨TokFe, "["⟩, none), (⟨TokParamNum, String.mk d⟩, some fail)] ∧
    (∀ l : lexer, l.state = lexCSParam → l.rd.pending = d →
      l.ReadToken.1 = (⟨TokParamNum, String.mk d⟩, some l.rd.fail)) ∧
    (∀ (l : lexer) (c : Char) (p : List Char), l.state = lexCSParam → l.lastState = lexEsc →
      l.rd.pending = c :: p → (c.toNat ≥ 0x3c ∧ c.toNat ≤ 0x3f) →
      (∀ x ∈ p, x.toNat ≥ 0x30 ∧ x.toNat ≤ 0x3f) →
      l.ReadToken.1 = (⟨TokPrivParam, String.mk (c :: p)⟩, some l.rd.fail)) := by
  have hgen : ∀ l : lexer, l.state = lexCSParam → l.rd.pending = d →
      l.ReadToken.1 = (⟨TokParamNum, String.mk d⟩, some l.rd.fail) := by
    intro l hst hin
    obtain ⟨ls, st, ⟨pending, lr, fl⟩⟩ := l
    simp only at hst hin
    subst hst hin
    cases pending with
    | nil => exact absurd rfl hne
    | cons r rest =>
      have hr := hd r (List.mem_cons_self _ _)
      have h1 : ¬ (r.toNat ≥ 0x40 ∧ r.toNat ≤ 0x7e) := by omega
      have h2 : ¬ (r.toNat ≥ 0x3c ∧ r.toNat ≤ 0x3f) := by omega
      have h3 : r.toNat ≥ 0x30 ∧ r.toNat ≤ 0x3f := by omega
      have h4 : ¬ r = ':' := by rintro rfl; revert hr; decide
      have h5 : ¬ r = ';' := by rintro rfl; revert hr; decide
      have h6 : ¬ (ls = lexEsc ∧ r.toNat ≥ 0x3c ∧ r.toNat ≤ 0x3f) := fun h => h2 h.2
      simp only [lexer.ReadToken, RuneScanner.ReadRune, lexer.setState, lexer.readCSParamNum,
        RuneScanner.UnreadRune]
      rw [if_neg h1, if_neg h6, if_pos h3, if_neg h2, if_neg h4, if_neg h5,
        readCSParamNumLoop_all fl (r :: rest) "" hd]
      rfl
  refine ⟨?_, hgen, ?_⟩
  · have h := hgen ⟨lexEsc, lexCSParam, ⟨d, some '[', fail⟩⟩ rfl rfl
    simp only [tokenize, readTokens, List.map_cons, List.map_nil]
    refine congrArg₂ List.cons ?_ (congrArg₂ List.cons ?_ (congrArg₂ List.cons ?_ rfl))
    · rfl
    · rfl
    · exact h
  · intro l c p hst hls hin hc hp
    obtain ⟨ls, st, ⟨pending, lr, fl⟩⟩ := l
    simp only at hst hin hls
    subst hst hin hls
    have h1 : ¬ (c.toNat ≥ 0x40 ∧ c.toNat ≤ 0x7e) := by omega
    have hall : ∀ x ∈ c :: p, x.toNat ≥ 0x30 ∧ x.toNat ≤ 0x3f := by
      intro x hx
      rcases List.mem_cons.mp hx with rfl | hx
      · omega
      · exact hp x hx
    have h2 : True ∧ c.toNat ≥ 0x3c ∧ c.toNat ≤ 0x3f := ⟨trivial, hc⟩
    simp only [lexer.ReadToken, RuneScanner.ReadRune, lexer.readCSPrivParam,
      RuneScanner.UnreadRune]
    rw [if_neg h1, if_pos h2, readCSPrivParamLoop_all fl (c :: p) "" hall]
    rfl

theorem C5_truncated_stream_witness :
    (['1', '2'] ≠ [] ∧ ∀ c ∈ ['1', '2'], c.toNat ≥ 0x30 ∧ c.toNat ≤ 0x39) ∧
    tokenize 3 [ESC, '[', '1', '2'] .EOF =
      [(⟨TokEsc, "\x1b"⟩, none), (⟨TokFe, "["⟩, none), (⟨TokParamNum, "12"⟩, some .EOF)] ∧
    (⟨lexEsc, lexCSParam, .ofInput ['?', '2', '5'] .EOF⟩ : lexer).ReadToken.1
      = (⟨TokPrivParam, "?25"⟩, some .EOF) :=
  ⟨⟨by decide, by decide⟩,
    (C5_truncated_stream ['1', '2'] .EOF (by decide) (by decide)).1,
    (C5_truncated_stream ['1', '2'] .EOF (by decide) (by decide)).2.2
      ⟨lexEsc, lexCSParam, .ofInput ['?', '2', '5'] .EOF⟩ '?' ['2', '5'] rfl rfl rfl
      (by decide) (by decide)⟩

/-- Claim C6 (read failure before any code point). Whatever the states are, when
the first read of a call fails (nothing is left to read), `ReadToken` returns
a `TokNone` token with empty text together with the source error, and
`state` and `lastState` are unchanged. -/
theorem C6_read_failure (l : lexer) (h : l.rd.pending = []) :
    l.ReadToken.1 = (⟨TokNone, ""⟩, some l.rd.fail) ∧
      l.ReadToken.2.state = l.state ∧ l.ReadToken.2.lastState = l.lastState ∧
      l.ReadToken.2.rd.pending = [] := by
  obtain ⟨ls, st, ⟨pending, lr, fl⟩⟩ := l
  simp only at h
  subst h
  simp [lexer.ReadToken, RuneScanner.ReadRune]

theorem C6_read_failure_witness :
    (⟨lexEsc, lexCSParam, .ofInput [] (.Other 5)⟩ : lexer).rd.pending = [] ∧
    (⟨lexEsc, lexCSParam, .ofInput [] (.Other 5)⟩ : lexer).ReadToken.1
      = (⟨TokNone, ""⟩, some (.Other 5)) ∧
    (⟨lexEsc, lexCSParam, .ofInput [] (.Other 5)⟩ : lexer).ReadToken.2.state = lexCSParam ∧
    (⟨lexEsc, lexCSParam, .ofInput [] (.Other 5)⟩ : lexer).ReadToken.2.lastState = lexEsc ∧
    (⟨lexEsc, lexCSParam, .ofInput [] (.Other 5)⟩ : lexer).ReadToken.2.rd.pending = [] :=
  ⟨rfl, C6_read_failure ⟨lexEsc, lexCSParam, .ofInput [] (.Other 5)⟩ rfl⟩

/-- Claim C7 (errors come only from the source). `ReadToken` returns a non-nil
error exactly when a read failed during the call: nothing was left to read at
the start, or a run scanner (the token is `TokParamNum` or `TokPrivParam`) read
the input to its end. The error is then the source error. A token of kind
`Unknown`, `Text`, `Esc`, `Fe`, `ParamSubSep`, `ParamSep`, `Intermediate` or
`Final` always comes with a nil error. -/
theorem C7_errors_from_source (l : lexer) :
    (l.ReadToken.1.2 ≠ none ↔
      (l.rd.pending = [] ∨
        ((l.ReadToken.1.1.t = TokParamNum ∨ l.ReadToken.1.1.t = TokPrivParam) ∧
          l.ReadToken.2.rd.pending = []))) ∧
    (∀ e, l.ReadToken.1.2 = some e → e = l.rd.fail) ∧
    (l.ReadToken.1.1.t ∈ [TokUnknown, TokText, TokEsc, TokFe, TokParamSep, TokSep, TokInter,
        TokFinal] → l.ReadToken.1.2 = none) := by
  obtain ⟨ls, st, ⟨pending, lr, fl⟩⟩ := l
  cases pending with
  | nil => simp [lexer.ReadToken, RuneScanner.ReadRune, eq_comm]
  | cons r rest =>
    cases st <;> simp only [lexer.ReadToken, RuneScanner.ReadRune, lexer.fallback, lexer.setState,
      lexer.readCSPrivParam, lexer.readCSParamNum, RuneScanner.UnreadRune, string] <;>
    split_ifs <;> simp
    · rw [readCSPrivParamLoop_err]; split_ifs with h1 <;> simp [h1, eq_comm]
    · rw [readCSParamNumLoop_err]; split_ifs with h1 <;> simp [h1, eq_comm]

/-- In state `lexDefault`, over code points none of which is `ESC`, every call
returns the `Text` token of the next code point and stays in `lexDefault`; the
call after the last code point reports the source error. -/
theorem readTokens_text (l : lexer) (hst : l.state = lexDefault)
    (h : ∀ c ∈ l.rd.pending, c.toNat ≠ 0x1b) :
    (readTokens (l.rd.pending.length + 1) l).map (·.1) =
      l.rd.pending.map (fun c => ((⟨TokText, string c⟩ : token), (none : Option ReadError)))
        ++ [(⟨TokNone, ""⟩, some l.rd.fail)] ∧
    ∀ res ∈ readTokens (l.rd.pending.length + 1) l, res.2.state = lexDefault := by
  obtain ⟨ls, st, ⟨pending, lr, fl⟩⟩ := l
  simp only at hst h
  subst hst
  induction pending generalizing ls lr with
  | nil => simp [readTokens, lexer.ReadToken, RuneScanner.ReadRune]
  | cons r rest ih =>
    have hr : r.toNat ≠ 0x1b := h r (List.mem_cons_self _ _)
    have ih1 := ih ls (some r) (fun c hc => h c (List.mem_cons_of_mem _ hc))
    have hstep : (⟨ls, lexDefault, ⟨r :: rest, lr, fl⟩⟩ : lexer).ReadToken
        = ((⟨TokText, string r⟩, none), ⟨ls, lexDefault, ⟨rest, some r, fl⟩⟩) := by
      simp [lexer.ReadToken, RuneScanner.ReadRune, hr]
    simp only [List.length_cons] at ih1 ⊢
    rw [readTokens, hstep]
    refine ⟨?_, ?_⟩
    · simpa using ih1.1
    · intro res hres
      rcases List.mem_cons.mp hres with rfl | hres
      · rfl
      · exact ih1.2 res hres

/-- Claim C8 (plain text passthrough). Over an input without the code point
`0x1b`, a fresh lexer returns one token per code point, in input order, each
of kind `Text` with that code point as text and a nil error, then reports the
end of the input; the state is `lexDefault` after every call. -/
theorem C8_plain_text (input : List Char) (fail : ReadError)
    (h : ∀ c ∈ input, c.toNat ≠ 0x1b) :
    tokenize (input.length + 1) input fail =
      input.map (fun c => ((⟨TokText, string c⟩ : token), (none : Option ReadError)))
        ++ [(⟨TokNone, ""⟩, some fail)] ∧
    ∀ res ∈ readTokens (input.length + 1) (NewLexer (.ofInput input fail)),
      res.2.state = lexDefault :=
  readTokens_text (NewLexer (.ofInput input fail)) rfl h

theorem C8_plain_text_witness :
    (∀ c ∈ ['a', 'b'], c.toNat ≠ 0x1b) ∧
    tokenize 3 ['a', 'b'] .EOF =
      [(⟨TokText, "a"⟩, none), (⟨TokText, "b"⟩, none), (⟨TokNone, ""⟩, some .EOF)] :=
  ⟨by decide, (C8_plain_text ['a', 'b'] .EOF (by decide)).1⟩

/-- Claim C9 (CSI final terminates). Whenever `ReadToken` returns a `Final` token,
the state afterwards is `lexDefault`; the next call then returns `Esc("\x1b")`
if the next code point is `0x1b` and the `Text` token of that code point
otherwise. -/
theorem C9_final_terminates (l : lexer) (h : l.ReadToken.1.1.t = TokFinal) :
    l.ReadToken.2.state = lexDefault ∧
    ∀ (c : Char) (rest : List Char), l.ReadToken.2.rd.pending = c :: rest →
      (c.toNat = 0x1b → l.ReadToken.2.ReadToken.1 = (⟨TokEsc, "\x1b"⟩, none)) ∧
      (c.toNat ≠ 0x1b → l.ReadToken.2.ReadToken.1 = (⟨TokText, string c⟩, none)) := by
  have hst : l.ReadToken.2.state = lexDefault := by
    obtain ⟨ls, st, ⟨pending, lr, fl⟩⟩ := l
    revert h
    cases pending with
    | nil => simp [lexer.ReadToken, RuneScanner.ReadRune]
    | cons r rest =>
      cases st <;> simp only [lexer.ReadToken, RuneScanner.ReadRune, lexer.fallback,
        lexer.setState, lexer.readCSPrivParam, lexer.readCSParamNum, RuneScanner.UnreadRune,
        string] <;>
      split_ifs <;> simp
  refine ⟨hst, ?_⟩
  generalize l.ReadToken.2 = l2 at hst
  intro c rest hin
  obtain ⟨ls, st, ⟨pending, lr, fl⟩⟩ := l2
  simp only at hst hin
  subst hst hin
  refine ⟨?_, ?_⟩
  · intro hc
    have hc2 : c = Char.ofNat 0x1b := toNat_injective hc
    subst hc2
    rfl
  · intro hc
    simp [lexer.ReadToken, RuneScanner.ReadRune, hc]

theorem C9_final_terminates_witness :
    (⟨lexCSParam, lexCSParam, .ofInput ['m', ESC, 'x'] .EOF⟩ : lexer).ReadToken.1.1.t = TokFinal ∧
    (⟨lexCSParam, lexCSParam, .ofInput ['m', ESC, 'x'] .EOF⟩ : lexer).ReadToken.2.state
      = lexDefault ∧
    (⟨lexCSParam, lexCSParam, .ofInput ['m', ESC, 'x'] .EOF⟩ : lexer).ReadToken.2.ReadToken.1
      = (⟨TokEsc, "\x1b"⟩, none) :=
  ⟨by decide,
    (C9_final_terminates ⟨lexCSParam, lexCSParam, .ofInput ['m', ESC, 'x'] .EOF⟩ (by decide)).1,
    ((C9_final_terminates ⟨lexCSParam, lexCSParam, .ofInput ['m', ESC, 'x'] .EOF⟩
      (by decide)).2 ESC ['x'] rfl).1 (by decide)⟩

/-- Claim C10 (intermediate bytes). In state `lexCSParam` or `lexCSInter`, a next
code point `c` in `[0x20, 0x2f]` gives `Intermediate` with text `c` and a nil
error, and the state becomes `lexCSInter`; in state `lexCSInter` a next code
point in `[0x40, 0x7e]` gives `Final` with that code point and the state becomes
`lexDefault`. And `ESC [ 1 $ p` gives `Esc`, `Fe("[")`, `ParamDigits("1")`,
`Intermediate("$")`, `Final("p")`, then the end of input. -/
theorem C10_intermediate_bytes (l : lexer) (c : Char) (rest : List Char) (fail : ReadError)
    (hin : l.rd.pending = c :: rest) :
    ((l.state = lexCSParam ∨ l.state = lexCSInter) → (c.toNat ≥ 0x20 ∧ c.toNat ≤ 0x2f) →
      l.ReadToken.1 = (⟨TokInter, string c⟩, none) ∧ l.ReadToken.2.state = lexCSInter ∧
        l.ReadToken.2.rd.pending = rest) ∧
    (l.state = lexCSInter → (c.toNat ≥ 0x40 ∧ c.toNat ≤ 0x7e) →
      l.ReadToken.1 = (⟨TokFinal, string c⟩, none) ∧ l.ReadToken.2.state = lexDefault ∧
        l.ReadToken.2.rd.pending = rest) ∧
    tokenize 6 [ESC, '[', '1', '$', 'p'] fail =
      [(⟨TokEsc, "\x1b"⟩, none), (⟨TokFe, "["⟩, none), (⟨TokParamNum, "1"⟩, none),
       (⟨TokInter, "$"⟩, none), (⟨TokFinal, "p"⟩, none), (⟨TokNone, ""⟩, some fail)] := by
  obtain ⟨ls, st, ⟨pending, lr, fl⟩⟩ := l
  simp only at hin
  subst hin
  refine ⟨?_, ?_, rfl⟩
  · intro hst hc
    simp only at hst
    have h1 : ¬ (c.toNat ≥ 0x40 ∧ c.toNat ≤ 0x7e) := by omega
    have h2 : ¬ (c.toNat ≥ 0x30 ∧ c.toNat ≤ 0x3f) := by omega
    have h3 : ¬ (ls = lexEsc ∧ c.toNat ≥ 0x3c ∧ c.toNat ≤ 0x3f) := by
      intro h; have := h.2; omega
    rcases hst with rfl | rfl
    · simp only [lexer.ReadToken, RuneScanner.ReadRune, lexer.setState]
      rw [if_neg h1, if_neg h3, if_neg h2, if_pos hc]
      exact ⟨rfl, rfl, rfl⟩
    · simp only [lexer.ReadToken, RuneScanner.ReadRune, lexer.setState]
      rw [if_neg h1, if_pos hc]
      exact ⟨rfl, rfl, rfl⟩
  · intro hst hc
    simp only at hst
    subst hst
    simp only [lexer.ReadToken, RuneScanner.ReadRune, lexer.setState]
    rw [if_pos hc]
    exact ⟨rfl, rfl, rfl⟩

theorem C10_intermediate_bytes_witness :
    ('$'.toNat ≥ 0x20 ∧ '$'.toNat ≤ 0x2f) ∧
    ((⟨lexCSParam, lexCSParam, .ofInput ['$', 'p'] .EOF⟩ : lexer).ReadToken.1
        = (⟨TokInter, string '$'⟩, none) ∧
      (⟨lexCSParam, lexCSParam, .ofInput ['$', 'p'] .EOF⟩ : lexer).ReadToken.2.state = lexCSInter ∧
      (⟨lexCSParam, lexCSParam, .ofInput ['$', 'p'] .EOF⟩ : lexer).ReadToken.2.rd.pending = ['p']) ∧
    ((⟨lexCSParam, lexCSInter, .ofInput ['p'] .EOF⟩ : lexer).ReadToken.1
        = (⟨TokFinal, string 'p'⟩, none) ∧
      (⟨lexCSParam, lexCSInter, .ofInput ['p'] .EOF⟩ : lexer).ReadToken.2.state = lexDefault ∧
      (⟨lexCSParam, lexCSInter, .ofInput ['p'] .EOF⟩ : lexer).ReadToken.2.rd.pending = []) :=
  ⟨by decide,
    (C10_intermediate_bytes ⟨lexCSParam, lexCSParam, .ofInput ['$', 'p'] .EOF⟩ '$' ['p'] .EOF
      rfl).1 (Or.inl rfl) (by decide),
    (C10_intermediate_bytes ⟨lexCSParam, lexCSInter, .ofInput ['p'] .EOF⟩ 'p' [] .EOF
      rfl).2.1 rfl (by decide)⟩

/-! ## Runs as longest prefixes -/

/-- The loop of `readCSParamNum` takes the longest prefix of digits. -/
theorem readCSParamNumLoop_eq (fail : ReadError) (pending : List Char) (buf : String) :
    readCSParamNumLoop fail pending buf =
      (⟨buf.data ++ pending.takeWhile isDigitRune⟩,
        if pending.dropWhile isDigitRune = [] then some fail else none,
        ⟨pending.dropWhile isDigitRune, none, fail⟩) := by
  induction pending generalizing buf with
  | nil => simp [readCSParamNumLoop]
  | cons r rest ih =>
    unfold readCSParamNumLoop
    by_cases h : r.toNat ≥ 0x30 ∧ r.toNat ≤ 0x39
    · have hp : isDigitRune r = true := by simpa [isDigitRune] using h
      rw [if_pos h, ih]
      simp [List.takeWhile, List.dropWhile, hp, String.push]
    · have hp : isDigitRune r = false := by simpa [isDigitRune] using h
      rw [if_neg h]
      simp [List.takeWhile, List.dropWhile, hp]

/-- The loop of `readCSPrivParam` takes the longest prefix of parameter bytes. -/
theorem readCSPrivParamLoop_eq (fail : ReadError) (pending : List Char) (buf : String) :
    readCSPrivParamLoop fail pending buf =
      (⟨buf.data ++ pending.takeWhile isParamRune⟩,
        if pending.dropWhile isParamRune = [] then some fail else none,
        ⟨pending.dropWhile isParamRune, none, fail⟩) := by
  induction pending generalizing buf with
  | nil => simp [readCSPrivParamLoop]
  | cons r rest ih =>
    unfold readCSPrivParamLoop
    by_cases h : r.toNat ≥ 0x30 ∧ r.toNat ≤ 0x3f
    · have hp : isParamRune r = true := by simpa [isParamRune] using h
      rw [if_pos h, ih]
      simp [List.takeWhile, List.dropWhile, hp, String.push]
    · have hp : isParamRune r = false := by simpa [isParamRune] using h
      rw [if_neg h]
      simp [List.takeWhile, List.dropWhile, hp]

/-- What `dropWhile` leaves starts with an element that fails the test. -/
theorem dropWhile_head_false (p : Char → Bool) (xs : List Char) (x : Char) (r : List Char)
    (h : xs.dropWhile p = x :: r) : p x = false := by
  induction xs with
  | nil => simp at h
  | cons y ys ih =>
    by_cases hy : p y = true
    · rw [List.dropWhile_cons_of_pos hy] at h
      exact ih h
    · rw [List.dropWhile_cons_of_neg hy] at h
      have h1 : y = x := (List.cons.inj h).1
      subst h1
      simpa using hy

/-- Claim C11 (exact consumption per call). For every lexer and every remaining
input, the remaining input before a call is the text of the token returned
followed by the remaining input after the call. A `TokNone` token has empty
text, and a token of a single-code-point kind has as text exactly the one code
point the call consumed. -/
theorem C11_exact_consumption (l : lexer) :
    l.rd.pending = l.ReadToken.1.1.Val.data ++ l.ReadToken.2.rd.pending ∧
    (l.ReadToken.1.1.t = TokNone →
      l.ReadToken.1.1.Val = "" ∧ l.ReadToken.2.rd.pending = l.rd.pending) ∧
    (l.ReadToken.1.1.t ∈ [TokUnknown, TokText, TokEsc, TokFe, TokParamSep, TokSep, TokInter,
        TokFinal] →
      ∃ c, l.ReadToken.1.1.Val = string c ∧ l.rd.pending = c :: l.ReadToken.2.rd.pending) := by
  refine ⟨(ReadToken_data l).symm, ?_, ?_⟩
  · obtain ⟨ls, st, ⟨pending, lr, fl⟩⟩ := l
    cases pending with
    | nil => simp [lexer.ReadToken, RuneScanner.ReadRune, token.Val]
    | cons r rest =>
      cases st <;> simp only [lexer.ReadToken, RuneScanner.ReadRune, lexer.fallback,
        lexer.setState, lexer.readCSPrivParam, lexer.readCSParamNum, RuneScanner.UnreadRune,
        string] <;>
      split_ifs <;> simp
  · obtain ⟨ls, st, ⟨pending, lr, fl⟩⟩ := l
    cases pending with
    | nil => simp [lexer.ReadToken, RuneScanner.ReadRune, token.Val]
    | cons r rest =>
      cases st <;> simp only [lexer.ReadToken, RuneScanner.ReadRune, lexer.fallback,
        lexer.setState, lexer.readCSPrivParam, lexer.readCSParamNum, RuneScanner.UnreadRune,
        string, token.Val] <;>
      split_ifs <;> simp

/-- Claim C12 (private-marker run in first position). In state `lexCSParam` with
`lastState = lexEsc`, on a next code point in `[0x3c, 0x3f]`, `ReadToken`
returns a `PrivateParam` token whose text is the longest prefix of the
remaining input made of code points in `[0x30, 0x3f]`; what follows that prefix
is left unread, so the next unread code point, if any, is outside the range;
`state` and `lastState` stay `lexCSParam` and `lexEsc`. -/
theorem C12_private_marker_run (l : lexer) (c : Char) (rest : List Char)
    (hst : l.state = lexCSParam) (hls : l.lastState = lexEsc)
    (hin : l.rd.pending = c :: rest) (hc : c.toNat ≥ 0x3c ∧ c.toNat ≤ 0x3f) :
    l.ReadToken.1.1 = ⟨TokPrivParam, String.mk ((c :: rest).takeWhile isParamRune)⟩ ∧
    l.ReadToken.2.rd.pending = (c :: rest).dropWhile isParamRune ∧
    (∀ (x : Char) (r : List Char), l.ReadToken.2.rd.pending = x :: r →
      ¬ (x.toNat ≥ 0x30 ∧ x.toNat ≤ 0x3f)) ∧
    l.ReadToken.2.state = lexCSParam ∧ l.ReadToken.2.lastState = lexEsc := by
  obtain ⟨ls, st, ⟨pending, lr, fl⟩⟩ := l
  simp only at hst hin hls
  subst hst hin hls
  have h1 : ¬ (c.toNat ≥ 0x40 ∧ c.toNat ≤ 0x7e) := by omega
  have h2 : True ∧ c.toNat ≥ 0x3c ∧ c.toNat ≤ 0x3f := ⟨trivial, hc⟩
  have hrun : (⟨lexEsc, lexCSParam, ⟨c :: rest, lr, fl⟩⟩ : lexer).ReadToken =
      ((⟨TokPrivParam, String.mk ((c :: rest).takeWhile isParamRune)⟩,
          if (c :: rest).dropWhile isParamRune = [] then some fl else none),
        ⟨lexEsc, lexCSParam, ⟨(c :: rest).dropWhile isParamRune, none, fl⟩⟩) := by
    simp only [lexer.ReadToken, RuneScanner.ReadRune, lexer.readCSPrivParam,
      RuneScanner.UnreadRune]
    rw [if_neg h1, if_pos h2, readCSPrivParamLoop_eq]
    rfl
  rw [hrun]
  refine ⟨rfl, rfl, ?_, rfl, rfl⟩
  intro x r hx
  have hp := dropWhile_head_false isParamRune (c :: rest) x r hx
  simpa [isParamRune] using hp

theorem C12_private_marker_run_witness :
    ('?'.toNat ≥ 0x3c ∧ '?'.toNat ≤ 0x3f) ∧
    (⟨lexEsc, lexCSParam, .ofInput ['?', '2', ';', '5', 'h', 'x'] .EOF⟩ : lexer).ReadToken.1.1
      = ⟨TokPrivParam, "?2;5"⟩ ∧
    (⟨lexEsc, lexCSParam, .ofInput ['?', '2', ';', '5', 'h', 'x'] .EOF⟩ : lexer).ReadToken.2.rd.pending
      = ['h', 'x'] ∧
    (⟨lexEsc, lexCSParam, .ofInput ['?', '2', ';', '5', 'h', 'x'] .EOF⟩ : lexer).ReadToken.2.state
      = lexCSParam ∧
    (⟨lexEsc, lexCSParam, .ofInput ['?', '2', ';', '5', 'h', 'x'] .EOF⟩ : lexer).ReadToken.2.lastState
      = lexEsc :=
  ⟨by decide,
    (C12_private_marker_run ⟨lexEsc, lexCSParam, .ofInput ['?', '2', ';', '5', 'h', 'x'] .EOF⟩
      '?' ['2', ';', '5', 'h', 'x'] rfl rfl rfl (by decide)).1,
    (C12_private_marker_run ⟨lexEsc, lexCSParam, .ofInput ['?', '2', ';', '5', 'h', 'x'] .EOF⟩
      '?' ['2', ';', '5', 'h', 'x'] rfl rfl rfl (by decide)).2.1,
    (C12_private_marker_run ⟨lexEsc, lexCSParam, .ofInput ['?', '2', ';', '5', 'h', 'x'] .EOF⟩
      '?' ['2', ';', '5', 'h', 'x'] rfl rfl rfl (by decide)).2.2.2⟩

/-- Claim C13 (digit run). In state `lexCSParam`, whatever `lastState` is, on a
next code point that is an ASCII digit, `ReadToken` returns a `ParamDigits`
token whose text is the longest prefix of the remaining input made of ASCII
digits: it is not empty and the next unread code point, if any, is not a
digit. `state` stays `lexCSParam` and `lastState` becomes `lexCSParam`. -/
theorem C13_digit_run (l : lexer) (c : Char) (rest : List Char)
    (hst : l.state = lexCSParam) (hin : l.rd.pending = c :: rest)
    (hc : c.toNat ≥ 0x30 ∧ c.toNat ≤ 0x39) :
    l.ReadToken.1.1 = ⟨TokParamNum, String.mk ((c :: rest).takeWhile isDigitRune)⟩ ∧
    l.ReadToken.1.1.Val ≠ "" ∧
    l.ReadToken.2.rd.pending = (c :: rest).dropWhile isDigitRune ∧
    (∀ (x : Char) (r : List Char), l.ReadToken.2.rd.pending = x :: r →
      ¬ (x.toNat ≥ 0x30 ∧ x.toNat ≤ 0x39)) ∧
    l.ReadToken.2.state = lexCSParam ∧ l.ReadToken.2.lastState = lexCSParam := by
  obtain ⟨ls, st, ⟨pending, lr, fl⟩⟩ := l
  simp only at hst hin
  subst hst hin
  have h1 : ¬ (c.toNat ≥ 0x40 ∧ c.toNat ≤ 0x7e) := by omega
  have h2 : ¬ (c.toNat ≥ 0x3c ∧ c.toNat ≤ 0x3f) := by omega
  have h3 : c.toNat ≥ 0x30 ∧ c.toNat ≤ 0x3f := by omega
  have h4 : ¬ c = ':' := by rintro rfl; revert hc; decide
  have h5 : ¬ c = ';' := by rintro rfl; revert hc; decide
  have h6 : ¬ (ls = lexEsc ∧ c.toNat ≥ 0x3c ∧ c.toNat ≤ 0x3f) := fun h => h2 h.2
  have hrun : (⟨ls, lexCSParam, ⟨c :: rest, lr, fl⟩⟩ : lexer).ReadToken =
      ((⟨TokParamNum, String.mk ((c :: rest).takeWhile isDigitRune)⟩,
          if (c :: rest).dropWhile isDigitRune = [] then some fl else none),
        ⟨lexCSParam, lexCSParam, ⟨(c :: rest).dropWhile isDigitRune, none, fl⟩⟩) := by
    simp only [lexer.ReadToken, RuneScanner.ReadRune, lexer.setState, lexer.readCSParamNum,
      RuneScanner.UnreadRune]
    rw [if_neg h1, if_neg h6, if_pos h3, if_neg h2, if_neg h4, if_neg h5, readCSParamNumLoop_eq]
    rfl
  rw [hrun]
  have hp : isDigitRune c = true := by simpa [isDigitRune] using hc
  refine ⟨rfl, ?_, rfl, ?_, rfl, rfl⟩
  · intro h
    have h7 := congrArg String.data h
    simp [token.Val, List.takeWhile, hp] at h7
  · intro x r hx
    have hq := dropWhile_head_false isDigitRune (c :: rest) x r hx
    simpa [isDigitRune] using hq

theorem C13_digit_run_witness :
    ('4'.toNat ≥ 0x30 ∧ '4'.toNat ≤ 0x39) ∧
    (⟨lexEsc, lexCSParam, .ofInput ['4', '2', ';', '5'] .EOF⟩ : lexer).ReadToken.1.1
      = ⟨TokParamNum, "42"⟩ ∧
    (⟨lexEsc, lexCSParam, .ofInput ['4', '2', ';', '5'] .EOF⟩ : lexer).ReadToken.2.rd.pending
      = [';', '5'] ∧
    (⟨lexEsc, lexCSParam, .ofInput ['4', '2', ';', '5'] .EOF⟩ : lexer).ReadToken.2.lastState
      = lexCSParam :=
  ⟨by decide,
    (C13_digit_run ⟨lexEsc, lexCSParam, .ofInput ['4', '2', ';', '5'] .EOF⟩ '4' ['2', ';', '5']
      rfl rfl (by decide)).1,
    (C13_digit_run ⟨lexEsc, lexCSParam, .ofInput ['4', '2', ';', '5'] .EOF⟩ '4' ['2', ';', '5']
      rfl rfl (by decide)).2.2.1,
    (C13_digit_run ⟨lexEsc, lexCSParam, .ofInput ['4', '2', ';', '5'] .EOF⟩ '4' ['2', ';', '5']
      rfl rfl (by decide)).2.2.2.2.2⟩

/-- Claim C14 (state `lexEsc`). In state `lexEsc`, a next code point `c` in
`[0x40, 0x5f]` gives `Fe` with text `c` and a nil error, and only `c` is
consumed; if `c` is `[` the state becomes `lexCSParam` with `lastState = lexEsc`,
otherwise the state becomes `lexDefault`. -/
theorem C14_after_escape (l : lexer) (c : Char) (rest : List Char)
    (hst : l.state = lexEsc) (hin : l.rd.pending = c :: rest)
    (hc : c.toNat ≥ 0x40 ∧ c.toNat ≤ 0x5f) :
    l.ReadToken.1 = (⟨TokFe, string c⟩, none) ∧ l.ReadToken.2.rd.pending = rest ∧
    (c = '[' → l.ReadToken.2.state = lexCSParam ∧ l.ReadToken.2.lastState = lexEsc) ∧
    (c ≠ '[' → l.ReadToken.2.state = lexDefault) := by
  obtain ⟨ls, st, ⟨pending, lr, fl⟩⟩ := l
  simp only at hst hin
  subst hst hin
  simp only [lexer.ReadToken, RuneScanner.ReadRune, lexer.setState]
  rw [if_pos hc]
  refine ⟨rfl, ?_, ?_, ?_⟩
  · by_cases h : c = '[' <;> simp [h]
  · intro h; simp [h]
  · intro h; simp [h]

theorem C14_after_escape_witness :
    ('['.toNat ≥ 0x40 ∧ '['.toNat ≤ 0x5f) ∧
    ((⟨lexDefault, lexEsc, .ofInput ['[', 'm'] .EOF⟩ : lexer).ReadToken.1
        = (⟨TokFe, string '['⟩, none) ∧
      (⟨lexDefault, lexEsc, .ofInput ['[', 'm'] .EOF⟩ : lexer).ReadToken.2.state = lexCSParam ∧
      (⟨lexDefault, lexEsc, .ofInput ['[', 'm'] .EOF⟩ : lexer).ReadToken.2.lastState = lexEsc) ∧
    ((⟨lexDefault, lexEsc, .ofInput ['M', 'm'] .EOF⟩ : lexer).ReadToken.1
        = (⟨TokFe, string 'M'⟩, none) ∧
      (⟨lexDefault, lexEsc, .ofInput ['M', 'm'] .EOF⟩ : lexer).ReadToken.2.state = lexDefault) :=
  ⟨by decide,
    ⟨(C14_after_escape ⟨lexDefault, lexEsc, .ofInput ['[', 'm'] .EOF⟩ '[' ['m'] rfl rfl
        (by decide)).1,
      ((C14_after_escape ⟨lexDefault, lexEsc, .ofInput ['[', 'm'] .EOF⟩ '[' ['m'] rfl rfl
        (by decide)).2.2.1 rfl)⟩,
    ⟨(C14_after_escape ⟨lexDefault, lexEsc, .ofInput ['M', 'm'] .EOF⟩ 'M' ['m'] rfl rfl
        (by decide)).1,
      (C14_after_escape ⟨lexDefault, lexEsc, .ofInput ['M', 'm'] .EOF⟩ 'M' ['m'] rfl rfl
        (by decide)).2.2.2 (by decide)⟩⟩

/-- Claim C15 (fallback rule). `ReadToken` returns `Unknown` with text the code
point `c` it read, a nil error, and sets the state to `lexDefault`, when `c`
matches no class of the current state: in `lexEsc` for `c` outside
`[0x40, 0x5f]`; in `lexCSParam` for `c` outside `[0x20, 0x7e]`; in `lexCSInter`
for `c` outside `[0x20, 0x2f]` and outside `[0x40, 0x7e]`. In `lexDefault` no
call returns an `Unknown` token. -/
theorem C15_fallback (l : lexer) (c : Char) (rest : List Char)
    (hin : l.rd.pending = c :: rest) :
    (l.state = lexEsc → ¬ (c.toNat ≥ 0x40 ∧ c.toNat ≤ 0x5f) →
      l.ReadToken.1 = (⟨TokUnknown, string c⟩, none) ∧ l.ReadToken.2.state = lexDefault ∧
        l.ReadToken.2.rd.pending = rest) ∧
    (l.state = lexCSParam → ¬ (c.toNat ≥ 0x20 ∧ c.toNat ≤ 0x7e) →
      l.ReadToken.1 = (⟨TokUnknown, string c⟩, none) ∧ l.ReadToken.2.state = lexDefault ∧
        l.ReadToken.2.rd.pending = rest) ∧
    (l.state = lexCSInter → ¬ (c.toNat ≥ 0x20 ∧ c.toNat ≤ 0x2f) →
      ¬ (c.toNat ≥ 0x40 ∧ c.toNat ≤ 0x7e) →
      l.ReadToken.1 = (⟨TokUnknown, string c⟩, none) ∧ l.ReadToken.2.state = lexDefault ∧
        l.ReadToken.2.rd.pending = rest) ∧
    (∀ l0 : lexer, l0.state = lexDefault → l0.ReadToken.1.1.t ≠ TokUnknown) := by
  obtain ⟨ls, st, ⟨pending, lr, fl⟩⟩ := l
  simp only at hin
  subst hin
  refine ⟨?_, ?_, ?_, ?_⟩
  · intro hst hc
    simp only at hst
    subst hst
    simp only [lexer.ReadToken, RuneScanner.ReadRune, lexer.setState, lexer.fallback]
    rw [if_neg hc]
    exact ⟨rfl, rfl, rfl⟩
  · intro hst hc
    simp only at hst
    subst hst
    have h1 : ¬ (c.toNat ≥ 0x40 ∧ c.toNat ≤ 0x7e) := by omega
    have h2 : ¬ (ls = lexEsc ∧ c.toNat ≥ 0x3c ∧ c.toNat ≤ 0x3f) := by
      intro h; have := h.2; omega
    have h3 : ¬ (c.toNat ≥ 0x30 ∧ c.toNat ≤ 0x3f) := by omega
    have h4 : ¬ (c.toNat ≥ 0x20 ∧ c.toNat ≤ 0x2f) := by omega
    simp only [lexer.ReadToken, RuneScanner.ReadRune, lexer.setState, lexer.fallback]
    rw [if_neg h1, if_neg h2, if_neg h3, if_neg h4]
    exact ⟨rfl, rfl, rfl⟩
  · intro hst h1 h2
    simp only at hst
    subst hst
    simp only [lexer.ReadToken, RuneScanner.ReadRune, lexer.setState, lexer.fallback]
    rw [if_neg h2, if_neg h1]
    exact ⟨rfl, rfl, rfl⟩
  · intro l0 hst
    obtain ⟨ls0, st0, ⟨pending0, lr0, fl0⟩⟩ := l0
    simp only at hst
    subst hst
    cases pending0 with
    | nil => simp [lexer.ReadToken, RuneScanner.ReadRune]
    | cons r rest0 =>
      simp only [lexer.ReadToken, RuneScanner.ReadRune, lexer.setState]
      split_ifs <;> simp

theorem C15_fallback_witness :
    (¬ ('1'.toNat ≥ 0x40 ∧ '1'.toNat ≤ 0x5f)) ∧
    ((⟨lexDefault, lexEsc, .ofInput ['1', 'm'] .EOF⟩ : lexer).ReadToken.1
        = (⟨TokUnknown, string '1'⟩, none) ∧
      (⟨lexDefault, lexEsc, .ofInput ['1', 'm'] .EOF⟩ : lexer).ReadToken.2.state = lexDefault ∧
      (⟨lexDefault, lexEsc, .ofInput ['1', 'm'] .EOF⟩ : lexer).ReadToken.2.rd.pending = ['m']) ∧
    ((⟨lexEsc, lexCSParam, .ofInput [ESC, 'm'] .EOF⟩ : lexer).ReadToken.1
        = (⟨TokUnknown, string ESC⟩, none) ∧
      (⟨lexEsc, lexCSParam, .ofInput [ESC, 'm'] .EOF⟩ : lexer).ReadToken.2.state = lexDefault ∧
      (⟨lexEsc, lexCSParam, .ofInput [ESC, 'm'] .EOF⟩ : lexer).ReadToken.2.rd.pending = ['m']) ∧
    ((⟨lexCSParam, lexCSInter, .ofInput ['1', 'm'] .EOF⟩ : lexer).ReadToken.1
        = (⟨TokUnknown, string '1'⟩, none) ∧
      (⟨lexCSParam, lexCSInter, .ofInput ['1', 'm'] .EOF⟩ : lexer).ReadToken.2.state = lexDefault ∧
      (⟨lexCSParam, lexCSInter, .ofInput ['1', 'm'] .EOF⟩ : lexer).ReadToken.2.rd.pending = ['m']) :=
  ⟨by decide,
    (C15_fallback ⟨lexDefault, lexEsc, .ofInput ['1', 'm'] .EOF⟩ '1' ['m'] rfl).1 rfl (by decide),
    (C15_fallback ⟨lexEsc, lexCSParam, .ofInput [ESC, 'm'] .EOF⟩ ESC ['m'] rfl).2.1 rfl
      (by decide),
    (C15_fallback ⟨lexCSParam, lexCSInter, .ofInput ['1', 'm'] .EOF⟩ '1' ['m'] rfl).2.2.1 rfl
      (by decide) (by decide)⟩

/-! ## Progress -/

/-- A token with empty text is the `TokNone` token of a failed first read. -/
theorem ReadToken_empty_val (l : lexer) (h : l.ReadToken.1.1.val = "") :
    l.ReadToken.1.1.t = TokNone ∧ l.ReadToken.1.2 = some l.rd.fail := by
  obtain ⟨ls, st, ⟨pending, lr, fl⟩⟩ := l
  cases pending with
  | nil => simp [lexer.ReadToken, RuneScanner.ReadRune]
  | cons r rest =>
    exfalso
    have hdata := congrArg String.data h
    revert hdata
    cases st <;> simp only [lexer.ReadToken, RuneScanner.ReadRune, lexer.fallback, lexer.setState,
      lexer.readCSPrivParam, lexer.readCSParamNum, RuneScanner.UnreadRune, string] <;>
    split_ifs <;> simp [String.singleton, String.push]
    · rename_i h1 h2
      have hp : isParamRune r = true := by
        simp only [isParamRune, decide_eq_true_eq]; omega
      rw [readCSPrivParamLoop_eq]
      simp [List.takeWhile, hp]
    · have hd : r.toNat ≥ 0x30 ∧ r.toNat ≤ 0x39 := by apply digit_of_default <;> assumption
      have hp : isDigitRune r = true := by simpa [isDigitRune] using hd
      rw [readCSParamNumLoop_eq]
      simp [List.takeWhile, hp]

/-- Every result of a drain but the last carries a nil error, so there are fewer
such results than calls allowed. -/
theorem drain_nil_count (n : Nat) (l : lexer)
    (rs : List ((token × Option ReadError) × lexer)) (h : drain n l = some rs) :
    (rs.filter (fun res => res.1.2.isNone)).length < n := by
  induction n generalizing l rs with
  | zero => simp [drain] at h
  | succ n ih =>
    unfold drain at h
    cases herr : l.ReadToken.1.2 with
    | some e =>
      simp only [herr, Option.some.injEq] at h
      subst h
      simp [herr]
    | none =>
      simp only [herr] at h
      cases hd : drain n l.ReadToken.2 with
      | none => simp [hd] at h
      | some rs1 =>
        simp only [hd, Option.map_some', Option.some.injEq] at h
        subst h
        have := ih l.ReadToken.2 rs1 hd
        simp [herr]
        omega

/-- Claim C16 (progress and termination). For every lexer, reachable or not,
and every remaining input: a token returned with a nil error has non-empty
text, and the call has consumed at least one code point; a token with empty
text is the `TokNone` token paired with the source error; a `ParamDigits` or
`PrivateParam` token never has empty text. Draining a fresh lexer over an
input of `n` code points ends, with at most `n` calls that return a nil error. -/
theorem C16_progress (l : lexer) (input : List Char) (fail : ReadError) :
    (l.ReadToken.1.2 = none →
      l.ReadToken.1.1.Val ≠ "" ∧ l.ReadToken.2.rd.pending.length < l.rd.pending.length) ∧
    (l.ReadToken.1.1.Val = "" →
      l.ReadToken.1.1.t = TokNone ∧ l.ReadToken.1.2 = some l.rd.fail) ∧
    (l.ReadToken.1.1.t = TokParamNum ∨ l.ReadToken.1.1.t = TokPrivParam →
      l.ReadToken.1.1.Val ≠ "") ∧
    ∃ rs, drain (input.length + 1) (NewLexer (.ofInput input fail)) = some rs ∧
      (rs.filter (fun res => res.1.2.isNone)).length ≤ input.length := by
  refine ⟨?_, ReadToken_empty_val l, ?_, ?_⟩
  · intro herr
    refine ⟨?_, ReadToken_progress l herr⟩
    intro hval
    have h := (ReadToken_empty_val l hval).2
    rw [herr] at h
    exact Option.noConfusion h
  · intro hk hval
    have h := (ReadToken_empty_val l hval).1
    rw [h] at hk
    rcases hk with hk | hk <;> exact TokenType.noConfusion hk
  · obtain ⟨rs, hrs, _⟩ :=
      drain_concat (input.length + 1) (NewLexer (.ofInput input fail)) (Nat.lt_succ_self _)
    exact ⟨rs, hrs, Nat.le_of_lt_succ (drain_nil_count _ _ rs hrs)⟩

/-- Claim C19 (ESC inside a sequence). In state `lexEsc`, `lexCSParam` or
`lexCSInter`, on a next code point `0x1b`, `ReadToken` returns `Unknown("\x1b")`
with a nil error and the state becomes `lexDefault`. A call that returns an
`Esc` token was made in state `lexDefault`. And `ESC ESC [ m` gives `Esc`,
`Unknown("\x1b")`, `Text("[")`, `Text("m")`, then the end of input. -/
theorem C19_esc_inside_sequence (l : lexer) (rest : List Char) (fail : ReadError)
    (hst : l.state = lexEsc ∨ l.state = lexCSParam ∨ l.state = lexCSInter)
    (hin : l.rd.pending = ESC :: rest) :
    (l.ReadToken.1 = (⟨TokUnknown, "\x1b"⟩, none) ∧ l.ReadToken.2.state = lexDefault ∧
      l.ReadToken.2.rd.pending = rest) ∧
    (∀ l0 : lexer, l0.ReadToken.1.1.t = TokEsc → l0.state = lexDefault) ∧
    tokenize 5 [ESC, ESC, '[', 'm'] fail =
      [(⟨TokEsc, "\x1b"⟩, none), (⟨TokUnknown, "\x1b"⟩, none), (⟨TokText, "["⟩, none),
       (⟨TokText, "m"⟩, none), (⟨TokNone, ""⟩, some fail)] := by
  refine ⟨?_, ?_, rfl⟩
  · obtain ⟨ls, st, ⟨pending, lr, fl⟩⟩ := l
    simp only at hst hin
    subst hin
    rcases hst with rfl | rfl | rfl
    · exact ⟨rfl, rfl, rfl⟩
    · have h2 : ¬ (ls = lexEsc ∧ ESC.toNat ≥ 0x3c ∧ ESC.toNat ≤ 0x3f) := by
        intro h; exact absurd h.2.1 (by decide)
      simp only [lexer.ReadToken, RuneScanner.ReadRune, lexer.setState, lexer.fallback]
      rw [if_neg (by decide), if_neg h2, if_neg (by decide), if_neg (by decide)]
      exact ⟨rfl, rfl, rfl⟩
    · exact ⟨rfl, rfl, rfl⟩
  · intro l0
    obtain ⟨ls, st, ⟨pending, lr, fl⟩⟩ := l0
    cases pending with
    | nil => simp [lexer.ReadToken, RuneScanner.ReadRune]
    | cons r rest0 =>
      cases st <;> simp only [lexer.ReadToken, RuneScanner.ReadRune, lexer.fallback,
        lexer.setState, lexer.readCSPrivParam, lexer.readCSParamNum, RuneScanner.UnreadRune,
        string] <;>
      split_ifs <;> simp

theorem C19_esc_inside_sequence_witness :
    ((⟨lexEsc, lexCSParam, .ofInput [ESC, '[', 'm'] .EOF⟩ : lexer).state = lexEsc ∨
      (⟨lexEsc, lexCSParam, .ofInput [ESC, '[', 'm'] .EOF⟩ : lexer).state = lexCSParam ∨
      (⟨lexEsc, lexCSParam, .ofInput [ESC, '[', 'm'] .EOF⟩ : lexer).state = lexCSInter) ∧
    ((⟨lexEsc, lexCSParam, .ofInput [ESC, '[', 'm'] .EOF⟩ : lexer).ReadToken.1
        = (⟨TokUnknown, "\x1b"⟩, none) ∧
      (⟨lexEsc, lexCSParam, .ofInput [ESC, '[', 'm'] .EOF⟩ : lexer).ReadToken.2.state = lexDefault ∧
      (⟨lexEsc, lexCSParam, .ofInput [ESC, '[', 'm'] .EOF⟩ : lexer).ReadToken.2.rd.pending
        = ['[', 'm']) :=
  ⟨Or.inr (Or.inl rfl),
    (C19_esc_inside_sequence ⟨lexEsc, lexCSParam, .ofInput [ESC, '[', 'm'] .EOF⟩ ['[', 'm'] .EOF
      (Or.inr (Or.inl rfl)) rfl).1⟩

/-! ## Invariants of the state pair -/

theorem stateInv_step (l : lexer) (h : stateInv l) : stateInv l.ReadToken.2 := by
  obtain ⟨ls, st, ⟨pending, lr, fl⟩⟩ := l
  cases pending with
  | nil => simpa [stateInv, lexer.ReadToken, RuneScanner.ReadRune] using h
  | cons r rest =>
    revert h
    cases st <;> cases ls <;>
    simp only [stateInv, lexer.ReadToken, RuneScanner.ReadRune, lexer.fallback, lexer.setState,
      lexer.readCSPrivParam, lexer.readCSParamNum, RuneScanner.UnreadRune, string] <;>
    split_ifs <;> simp

theorem stateInv_lexerAfter (k : Nat) (l : lexer) (h : stateInv l) :
    stateInv (lexerAfter k l) := by
  induction k generalizing l with
  | zero => exact h
  | succ k ih => exact ih _ (stateInv_step l h)

/-- The call made in state `lexCSParam` with `lastState = lexEsc` on a private
marker: the result in full. -/
theorem ReadToken_priv (lr : Option Char) (fl : ReadError) (c : Char) (rest : List Char)
    (hc : c.toNat ≥ 0x3c ∧ c.toNat ≤ 0x3f) :
    (⟨lexEsc, lexCSParam, ⟨c :: rest, lr, fl⟩⟩ : lexer).ReadToken =
      ((⟨TokPrivParam, String.mk ((c :: rest).takeWhile isParamRune)⟩,
          if (c :: rest).dropWhile isParamRune = [] then some fl else none),
        ⟨lexEsc, lexCSParam, ⟨(c :: rest).dropWhile isParamRune, none, fl⟩⟩) := by
  have h1 : ¬ (c.toNat ≥ 0x40 ∧ c.toNat ≤ 0x7e) := by omega
  have h2 : True ∧ c.toNat ≥ 0x3c ∧ c.toNat ≤ 0x3f := ⟨trivial, hc⟩
  simp only [lexer.ReadToken, RuneScanner.ReadRune, lexer.readCSPrivParam,
    RuneScanner.UnreadRune]
  rw [if_neg h1, if_pos h2, readCSPrivParamLoop_eq]
  rfl

/-- A `PrivateParam` token is returned only in state `lexCSParam` with
`lastState = lexEsc`, on a private marker. -/
theorem ReadToken_priv_pre (l : lexer) (h : l.ReadToken.1.1.t = TokPrivParam) :
    l.state = lexCSParam ∧ l.lastState = lexEsc ∧
      ∃ c rest, l.rd.pending = c :: rest ∧ c.toNat ≥ 0x3c ∧ c.toNat ≤ 0x3f := by
  obtain ⟨ls, st, ⟨pending, lr, fl⟩⟩ := l
  revert h
  cases pending with
  | nil => simp [lexer.ReadToken, RuneScanner.ReadRune]
  | cons r rest =>
    cases st <;> simp only [lexer.ReadToken, RuneScanner.ReadRune, lexer.fallback, lexer.setState,
      lexer.readCSPrivParam, lexer.readCSParamNum, RuneScanner.UnreadRune, string] <;>
    split_ifs <;> simp
    rename_i h1 h2
    exact ⟨h2.1, h2.2.1, h2.2.2⟩

/-- A call that leaves `state = lexCSParam` and `lastState = lexEsc` either
returned `Fe("[")`, or was made in that same state pair and left the source
empty or in front of a code point outside `[0x30, 0x3f]`. -/
theorem ReadToken_enter_pair (l : lexer) (hs : l.ReadToken.2.state = lexCSParam)
    (hl : l.ReadToken.2.lastState = lexEsc) :
    l.ReadToken.1 = (⟨TokFe, "["⟩, none) ∨
      ((l.state = lexCSParam ∧ l.lastState = lexEsc) ∧
        (l.ReadToken.2.rd.pending = [] ∨
          ∃ x r, l.ReadToken.2.rd.pending = x :: r ∧ ¬ (x.toNat ≥ 0x30 ∧ x.toNat ≤ 0x3f))) := by
  obtain ⟨ls, st, ⟨pending, lr, fl⟩⟩ := l
  cases pending with
  | nil =>
    right
    simpa [lexer.ReadToken, RuneScanner.ReadRune] using And.intro hs hl
  | cons r rest =>
    by_cases hpriv : (st = lexCSParam ∧ ls = lexEsc) ∧ (r.toNat ≥ 0x3c ∧ r.toNat ≤ 0x3f)
    · obtain ⟨⟨rfl, rfl⟩, hr⟩ := hpriv
      right
      rw [ReadToken_priv lr fl r rest hr]
      refine ⟨⟨rfl, rfl⟩, ?_⟩
      cases hdw : (r :: rest).dropWhile isParamRune with
      | nil => exact Or.inl rfl
      | cons x r1 =>
        right
        refine ⟨x, r1, rfl, ?_⟩
        have hp := dropWhile_head_false isParamRune (r :: rest) x r1 hdw
        simpa [isParamRune] using hp
    · left
      revert hs hl hpriv
      cases st <;> simp only [lexer.ReadToken, RuneScanner.ReadRune, lexer.fallback,
        lexer.setState, lexer.readCSPrivParam, lexer.readCSParamNum, RuneScanner.UnreadRune,
        string] <;>
      split_ifs <;> simp_all
      rfl

/-- Claim C18 (reachable-state invariant). In every state reached from a fresh
lexer by any number of `ReadToken` calls on any input: `state = lexEsc` implies
`lastState = lexDefault`; `state = lexCSParam` implies `lastState` is `lexEsc` or
`lexCSParam`; `state = lexCSInter` implies `lastState` is `lexCSParam` or
`lexCSInter`. And a call that enters the pair `state = lexCSParam`,
`lastState = lexEsc` from another pair is a call that returns `Fe("[")`. -/
theorem C18_state_invariant (input : List Char) (fail : ReadError) (k : Nat) :
    ((lexerAfter k (NewLexer (.ofInput input fail))).state = lexEsc →
      (lexerAfter k (NewLexer (.ofInput input fail))).lastState = lexDefault) ∧
    ((lexerAfter k (NewLexer (.ofInput input fail))).state = lexCSParam →
      (lexerAfter k (NewLexer (.ofInput input fail))).lastState = lexEsc ∨
        (lexerAfter k (NewLexer (.ofInput input fail))).lastState = lexCSParam) ∧
    ((lexerAfter k (NewLexer (.ofInput input fail))).state = lexCSInter →
      (lexerAfter k (NewLexer (.ofInput input fail))).lastState = lexCSParam ∨
        (lexerAfter k (NewLexer (.ofInput input fail))).lastState = lexCSInter) ∧
    (∀ l : lexer, l.ReadToken.2.state = lexCSParam → l.ReadToken.2.lastState = lexEsc →
      ¬ (l.state = lexCSParam ∧ l.lastState = lexEsc) →
      l.ReadToken.1 = (⟨TokFe, "["⟩, none)) := by
  have hinit : stateInv (NewLexer (.ofInput input fail)) := by
    simp [stateInv, NewLexer]
  obtain ⟨h1, h2, h3⟩ := stateInv_lexerAfter k _ hinit
  refine ⟨h1, h2, h3, ?_⟩
  intro l hs hl hne
  rcases ReadToken_enter_pair l hs hl with h | h
  · exact h
  · exact absurd h.1 hne

/-! ## The position of `PrivateParam` tokens -/

theorem lexerAfter_succ (k : Nat) (l : lexer) :
    lexerAfter (k + 1) l = (lexerAfter k l).ReadToken.2 := by
  induction k generalizing l with
  | zero => rfl
  | succ k ih =>
    show lexerAfter (k + 1) l.ReadToken.2 = _
    rw [ih]
    rfl

/-- The result of call number `i` is the result of `ReadToken` on the lexer
left by the `i` calls before it. -/
theorem readTokens_getElem (n i : Nat) (l : lexer) :
    (readTokens n l)[i]? = if i < n then some (lexerAfter i l).ReadToken else none := by
  induction n generalizing l i with
  | zero => simp [readTokens]
  | succ n ih =>
    cases i with
    | zero => simp [readTokens, lexerAfter]
    | succ i => simp [readTokens, lexerAfter, ih]

/-- In state `lexCSParam`, a code point outside `[0x30, 0x3f]` gives a `Final`,
`Intermediate` or `Unknown` token. -/
theorem ReadToken_after_run (l : lexer) (x : Char) (r : List Char)
    (hst : l.state = lexCSParam) (hin : l.rd.pending = x :: r)
    (hx : ¬ (x.toNat ≥ 0x30 ∧ x.toNat ≤ 0x3f)) :
    l.ReadToken.1.1.t = TokFinal ∨ l.ReadToken.1.1.t = TokInter ∨
      l.ReadToken.1.1.t = TokUnknown := by
  obtain ⟨ls, st, ⟨pending, lr, fl⟩⟩ := l
  simp only at hst hin
  subst hst hin
  have h2 : ¬ (ls = lexEsc ∧ x.toNat ≥ 0x3c ∧ x.toNat ≤ 0x3f) := by
    intro h; have := h.2; omega
  simp only [lexer.ReadToken, RuneScanner.ReadRune, lexer.setState, lexer.fallback]
  rw [if_neg h2, if_neg hx]
  split_ifs <;> simp

/-- Two consecutive calls, the second of which returns a `PrivateParam` token:
the first returned `Fe("[")`. -/
theorem ReadToken_before_priv (l : lexer) (h : l.ReadToken.2.ReadToken.1.1.t = TokPrivParam) :
    l.ReadToken.1 = (⟨TokFe, "["⟩, none) := by
  obtain ⟨hs, hl, c, rest, hin, hc1, hc2⟩ := ReadToken_priv_pre l.ReadToken.2 h
  rcases ReadToken_enter_pair l hs hl with h1 | ⟨_, h1 | ⟨x, r, hx, hnot⟩⟩
  · exact h1
  · rw [h1] at hin
    exact List.noConfusion hin
  · rw [hx] at hin
    have hxc : x = c := (List.cons.inj hin).1
    subst hxc
    exact absurd ⟨by omega, by omega⟩ hnot

/-- A call that returns a `PrivateParam` token: its text, and the kind of the
token of the next call when that call returns a nil error. -/
theorem ReadToken_priv_post (l : lexer) (h : l.ReadToken.1.1.t = TokPrivParam) :
    (∃ c p, l.ReadToken.1.1.val.data = c :: p ∧ (c.toNat ≥ 0x3c ∧ c.toNat ≤ 0x3f) ∧
      ∀ x ∈ p, x.toNat ≥ 0x30 ∧ x.toNat ≤ 0x3f) ∧
    (l.ReadToken.2.ReadToken.1.2 = none →
      l.ReadToken.2.ReadToken.1.1.t = TokFinal ∨ l.ReadToken.2.ReadToken.1.1.t = TokInter ∨
        l.ReadToken.2.ReadToken.1.1.t = TokUnknown) := by
  obtain ⟨hs, hl, c, rest, hin, hc⟩ := ReadToken_priv_pre l h
  obtain ⟨ls, st, ⟨pending, lr, fl⟩⟩ := l
  simp only at hs hl hin
  subst hs hl hin
  rw [ReadToken_priv lr fl c rest hc]
  have hp : isParamRune c = true := by
    simp only [isParamRune, decide_eq_true_eq]; omega
  refine ⟨⟨c, rest.takeWhile isParamRune, ?_, hc, ?_⟩, ?_⟩
  · simp [List.takeWhile, hp]
  · intro x hx
    have := List.mem_takeWhile_imp hx
    simpa [isParamRune] using this
  · intro herr
    cases hdw : (c :: rest).dropWhile isParamRune with
    | nil =>
      rw [hdw] at herr
      simp [lexer.ReadToken, RuneScanner.ReadRune] at herr
    | cons x r =>
      have hx := dropWhile_head_false isParamRune (c :: rest) x r hdw
      have hx2 : ¬ (x.toNat ≥ 0x30 ∧ x.toNat ≤ 0x3f) := by simpa [isParamRune] using hx
      exact ReadToken_after_run _ x r rfl rfl hx2

/-- Claim C17 (PrivateParam only directly after the CSI introducer). In the
results of any number `n` of calls on a fresh lexer over any input, a result
number `i` whose token is of kind `PrivateParam` is not the first one and the
result just before it is `Fe("[")` with a nil error; its text starts with a
code point in `[0x3c, 0x3f]` and holds only code points in `[0x30, 0x3f]`; and
the next result, when there is one and its error is nil, is of kind `Final`,
`Intermediate` or `Unknown`. -/
theorem C17_private_param_position (input : List Char) (fail : ReadError) (n i : Nat)
    (res : (token × Option ReadError) × lexer)
    (hres : (readTokens n (NewLexer (.ofInput input fail)))[i]? = some res)
    (hp : res.1.1.t = TokPrivParam) :
    (∃ j prev, i = j + 1 ∧ (readTokens n (NewLexer (.ofInput input fail)))[j]? = some prev ∧
      prev.1 = (⟨TokFe, "["⟩, none)) ∧
    (∃ c p, res.1.1.Val.data = c :: p ∧ (c.toNat ≥ 0x3c ∧ c.toNat ≤ 0x3f) ∧
      ∀ x ∈ p, x.toNat ≥ 0x30 ∧ x.toNat ≤ 0x3f) ∧
    (∀ next, (readTokens n (NewLexer (.ofInput input fail)))[i + 1]? = some next →
      next.1.2 = none →
      next.1.1.t = TokFinal ∨ next.1.1.t = TokInter ∨ next.1.1.t = TokUnknown) := by
  rw [readTokens_getElem] at hres
  have hin : i < n := by
    by_contra hlt
    rw [if_neg hlt] at hres
    exact Option.noConfusion hres
  rw [if_pos hin] at hres
  have hres2 : (lexerAfter i (NewLexer (.ofInput input fail))).ReadToken = res :=
    Option.some.inj hres
  subst hres2
  have hpost := ReadToken_priv_post _ hp
  refine ⟨?_, hpost.1, ?_⟩
  · cases i with
    | zero =>
      have hpre := (ReadToken_priv_pre _ hp).1
      exact lexerState.noConfusion hpre
    | succ j =>
      refine ⟨j, (lexerAfter j (NewLexer (.ofInput input fail))).ReadToken, rfl, ?_, ?_⟩
      · rw [readTokens_getElem, if_pos (by omega)]
      · rw [lexerAfter_succ] at hp
        exact ReadToken_before_priv _ hp
  · intro next hnext herr
    rw [readTokens_getElem] at hnext
    have hin2 : i + 1 < n := by
      by_contra hlt
      rw [if_neg hlt] at hnext
      exact Option.noConfusion hnext
    rw [if_pos hin2, lexerAfter_succ] at hnext
    have hnext2 := Option.some.inj hnext
    subst hnext2
    exact hpost.2 herr

theorem C17_private_param_position_witness :
    ((readTokens 5 (NewLexer (.ofInput [ESC, '[', '?', '2', '5', 'h'] .EOF)))[2]?
        = some ((⟨lexEsc, lexCSParam, .ofInput ['?', '2', '5', 'h'] .EOF⟩ : lexer).ReadToken) ∧
      ((⟨lexEsc, lexCSParam, .ofInput ['?', '2', '5', 'h'] .EOF⟩ : lexer).ReadToken).1.1.t
        = TokPrivParam) ∧
    (∃ j prev, 2 = j + 1 ∧
      (readTokens 5 (NewLexer (.ofInput [ESC, '[', '?', '2', '5', 'h'] .EOF)))[j]? = some prev ∧
      prev.1 = (⟨TokFe, "["⟩, none)) :=
  ⟨⟨by decide, by decide⟩,
    (C17_private_param_position [ESC, '[', '?', '2', '5', 'h'] .EOF 5 2
      ((⟨lexEsc, lexCSParam, .ofInput ['?', '2', '5', 'h'] .EOF⟩ : lexer).ReadToken)
      (by decide) (by decide)).1⟩

end escseq
